import Mathlib

-- Verification development for the SmartChatbot controller (src/m.py).
-- Text is modelled as List Char; the model collaborator's token type is the
-- piece of text a token detokenizes to, so detokenization is concatenation
-- (the interface of section 6 of the design document: tokenize/detokenize are
-- mutually inverse up to concatenation of token pieces).

namespace Chatbot

/-- A token of the model collaborator, identified with the text it
detokenizes to. -/
abbrev Token := List Char

/-- Model collaborator: detokenization concatenates the token pieces. -/
def detokenize (ts : List Token) : List Char := ts.flatten

/-- Model collaborator: a right inverse of detokenize (the whole text as one
token). Used only where the source re-tokenizes already-detokenized text. -/
def tokenize (t : List Char) : List Token := [t]

/-- The whitespace characters stripped by Python str.strip (ASCII range). -/
def isPySpace (c : Char) : Bool :=
  c = ' ' || c = '\t' || c = '\n' || c = '\r' || c = '\x0b' || c = '\x0c'

/-- Python str.strip(): drop whitespace from both ends. -/
def stripChars (t : List Char) : List Char :=
  ((t.dropWhile isPySpace).reverse.dropWhile isPySpace).reverse

/-- Python `pat in t` substring containment. -/
def containsSub (pat : List Char) : List Char → Bool
  | [] => pat.isEmpty
  | c :: rest => pat.isPrefixOf (c :: rest) || containsSub pat rest

/-- Python `t.split(pat)[0]`: the prefix of t before the first occurrence of
pat (all of t when pat does not occur; pat is nonempty at every call site). -/
def splitBefore (pat : List Char) : List Char → List Char
  | [] => []
  | c :: rest => if pat.isPrefixOf (c :: rest) then [] else c :: splitBefore pat rest

/-- Python str.upper on ASCII text. -/
def toUpperList (t : List Char) : List Char := t.map Char.toUpper

/-- Python str.lower on ASCII text. -/
def toLowerList (t : List Char) : List Char := t.map Char.toLower

-- ---------------------------------------------------------------------------
-- SearchNeedClassifier (src/m.py, should_search, lines 53-94)
-- ---------------------------------------------------------------------------

/-- The stop test of the classification loop (m.py line 63): the accumulated
transcript, detokenized, stripped and upper-cased, ends with YES or NO. -/
def yesNoSuffix (acc : List Token) : Bool :=
  ("YES".data).isSuffixOf (toUpperList (stripChars (detokenize acc))) ||
  ("NO".data).isSuffixOf (toUpperList (stripChars (detokenize acc)))

/-- The classification token loop (m.py lines 58-68): append a token, stop on
YES/NO suffix, otherwise stop when the 0-based enumerate index exceeds 20. -/
def classLoop (acc : List Token) (i : Nat) : List Token → List Token
  | [] => acc
  | tok :: rest =>
    if yesNoSuffix (acc ++ [tok]) then acc ++ [tok]
    else if i > 20 then acc ++ [tok]
    else classLoop (acc ++ [tok]) (i + 1) rest

/-- The tokens accumulated by the classification loop for a given stream. -/
def classifierTokens (stream : List Token) : List Token := classLoop [] 0 stream

/-- The final classification text (m.py line 70): detokenized, stripped,
upper-cased. -/
def classifierResponse (stream : List Token) : List Char :=
  toUpperList (stripChars (detokenize (classifierTokens stream)))

/-- Temporal fallback keywords (m.py line 80). -/
def timeIndicators : List (List Char) :=
  ["day".data, "date".data, "time".data, "today".data, "now".data]

/-- Recency fallback keywords (m.py line 84). -/
def currentIndicators : List (List Char) :=
  ["upcoming".data, "latest".data, "recent".data, "new".data, "current".data]

/-- The no-YES/NO keyword fallback (m.py lines 80-87). -/
def keywordFallback (input : List Char) : Bool :=
  if timeIndicators.any (fun w => containsSub w (toLowerList input)) then true
  else if currentIndicators.any (fun w => containsSub w (toLowerList input)) then true
  else false

/-- should_search, success path (m.py lines 53-87), for a given model token
stream. -/
def should_search (stream : List Token) (input : List Char) : Bool :=
  if containsSub ("YES".data) (classifierResponse stream) then true
  else if containsSub ("NO".data) (classifierResponse stream) then false
  else keywordFallback input

/-- The exception-path trigger terms (m.py line 93). -/
def searchTermsOnError : List (List Char) :=
  ["upcoming".data, "latest".data, "today".data, "current".data,
   "recent".data, "what day".data, "what time".data]

/-- The exception-path fallback (m.py lines 89-94). -/
def should_search_on_error (input : List Char) : Bool :=
  searchTermsOnError.any (fun t => containsSub t (toLowerList input))

/-- should_search in total form: `some stream` is a model call that yields the
given token stream; `none` is a model call that raises. The except clause
(m.py lines 89-94) makes the function return on both. -/
def should_search_total (modelOutcome : Option (List Token)) (input : List Char) : Bool :=
  match modelOutcome with
  | some stream => should_search stream input
  | none => should_search_on_error input

-- ---------------------------------------------------------------------------
-- StreamingGenerator (src/m.py, generate_response, lines 162-194)
-- ---------------------------------------------------------------------------

/-- The role-marker substrings, in the order the source checks them
(m.py line 176). -/
def stopMarkers : List (List Char) :=
  ["\nUser:".data, "\nHuman:".data, "User:".data, "Human:".data]

/-- The first marker, in list order, occurring in the text (m.py lines 179-184). -/
def findMarker (t : List Char) : Option (List Char) :=
  stopMarkers.find? (fun m => containsSub m t)

/-- The generation token loop (m.py lines 169-192): append a token; if a
marker occurs in the detokenized transcript, re-tokenize the text before the
marker and stop; otherwise stop once more than 200 tokens have accumulated. -/
def genLoop (acc : List Token) : List Token → List Token
  | [] => acc
  | tok :: rest =>
    match findMarker (detokenize (acc ++ [tok])) with
    | some m => tokenize (splitBefore m (detokenize (acc ++ [tok])))
    | none =>
      if (acc ++ [tok]).length > 200 then acc ++ [tok]
      else genLoop (acc ++ [tok]) rest

/-- StreamingGenerator.generate (m.py lines 169-194): run the loop,
detokenize, strip. -/
def generate (stream : List Token) : List Char :=
  stripChars (detokenize (genLoop [] stream))

-- ---------------------------------------------------------------------------
-- ResponseSanitizer (src/m.py, generate_response, lines 196-203)
-- ---------------------------------------------------------------------------

/-- The trailing role-label tokens, in source order (m.py line 201). -/
def trailingMarkers : List (List Char) :=
  ["\nUser".data, "\nHuman".data, "User".data, "Human".data]

/-- One step of the trailing-marker loop (m.py lines 201-203): if the text
ends with the marker, cut the marker off and re-strip. -/
def stripTrailing (r : List Char) (m : List Char) : List Char :=
  if m.isSuffixOf r then stripChars (r.take (r.length - m.length)) else r

/-- ResponseSanitizer.clean (m.py lines 196-203): strip a leading
"Assistant:" label (10 characters) with re-strip, then run the trailing
marker loop over all four markers in order. -/
def clean (t : List Char) : List Char :=
  trailingMarkers.foldl stripTrailing
    (if ("Assistant:".data).isPrefixOf t then stripChars (t.drop 10) else t)

/-- True when some rule of clean would fire on the text: a leading
"Assistant:" label, or a trailing role-label token. -/
def cleanTriggers (t : List Char) : Bool :=
  ("Assistant:".data).isPrefixOf t || trailingMarkers.any (fun m => m.isSuffixOf t)

-- ---------------------------------------------------------------------------
-- ConversationHistory (src/m.py, chat, lines 263-270; _build_context line 219)
-- ---------------------------------------------------------------------------

/-- One conversation turn. -/
structure Turn where
  user : List Char
  bot : List Char
deriving DecidableEq

/-- The history capacity (m.py line 21). -/
def maxHistory : Nat := 6

/-- Append a turn then trim to the last maxHistory turns
(m.py lines 263-270). -/
def appendTurn (conv : List Turn) (t : Turn) : List Turn :=
  if (conv ++ [t]).length > maxHistory then
    (conv ++ [t]).drop ((conv ++ [t]).length - maxHistory)
  else conv ++ [t]

/-- Python conversation[-n:] as used by _build_context (m.py line 219): the
last n turns, fewer when the history is shorter. -/
def recent (conv : List Turn) (n : Nat) : List Turn :=
  conv.drop (conv.length - n)

-- ---------------------------------------------------------------------------
-- WebSearchClient (src/m.py, search_web, lines 96-136)
-- ---------------------------------------------------------------------------

/-- One entry of the JSON results array; a missing title or content field is
the empty string (result.get with default, m.py lines 118-119). -/
structure SearchResult where
  title : List Char
  content : List Char
deriving DecidableEq

/-- The observable outcome of the HTTP call: a parsed results array, a
requests.RequestException (network failure, timeout, or the non-2xx raise of
raise_for_status), or any other exception. -/
inductive SearchOutcome where
  | success (results : List SearchResult)
  | requestFailure (e : List Char)
  | otherFailure (e : List Char)
deriving DecidableEq

/-- The sentinel no-results string (m.py line 113). -/
def noResultsMsg : List Char := "No current search results found.".data

/-- Python content.replace of every "..." with the empty string
(m.py line 126), scanning left to right. -/
def stripEllipsis : List Char → List Char
  | '.' :: '.' :: '.' :: rest => stripEllipsis rest
  | c :: rest => c :: stripEllipsis rest
  | [] => []

/-- One result entry's contribution to the summary (m.py lines 117-129):
a bulleted title-and-snippet line when content is nonempty, a bulleted title
line when only the title is, nothing otherwise. -/
def summaryStep (acc : List (List Char)) (r : SearchResult) : List (List Char) :=
  if r.content ≠ [] then
    acc ++ [("• ".data) ++ r.title ++ (": ".data) ++
            stripEllipsis (stripChars (r.content.take 150))]
  else if r.title ≠ [] then acc ++ [("• ".data) ++ r.title]
  else acc

/-- search_web (m.py lines 96-136) over the outcome of the HTTP call. -/
def search_web (outcome : SearchOutcome) (maxResults : Nat) : List Char :=
  match outcome with
  | SearchOutcome.success results =>
    if results = [] then noResultsMsg
    else List.intercalate ("\n".data) ((results.take maxResults).foldl summaryStep [])
  | SearchOutcome.requestFailure e => ("Search currently unavailable: ".data) ++ e
  | SearchOutcome.otherFailure e => ("Search error: ".data) ++ e

-- ---------------------------------------------------------------------------
-- Prompt assembly and the error path (src/m.py, lines 145-159, 210-211)
-- ---------------------------------------------------------------------------

/-- The prompt without a search block (m.py lines 158-159). -/
def plainPrompt (context input : List Char) : List Char :=
  context ++ ("User: ".data) ++ input ++ ("\nAssistant:".data)

/-- The prompt with a search block (m.py lines 152-156). -/
def searchPrompt (context input searchInfo : List Char) : List Char :=
  context ++ ("Current web search results for reference:\n".data) ++ searchInfo ++
  ("\n\nUser: ".data) ++ input ++ ("\nAssistant:".data)

/-- Prompt assembly (m.py line 151): the search block is used only when the
search text is truthy (nonempty) and differs from the sentinel. -/
def buildPrompt (context input searchInfo : List Char) : List Char :=
  if searchInfo ≠ [] ∧ searchInfo ≠ noResultsMsg then
    searchPrompt context input searchInfo
  else plainPrompt context input

/-- The apologetic message of the generation except clause (m.py line 211). -/
def errorResponse (e : List Char) : List Char :=
  ("Sorry, I encountered an error: ".data) ++ e

-- ---------------------------------------------------------------------------
-- Helper lemmas on the text primitives
-- ---------------------------------------------------------------------------

theorem splitBefore_prefix (pat t : List Char) : splitBefore pat t <+: t := by
  induction t with
  | nil => simp [splitBefore]
  | cons c rest ih =>
    rw [splitBefore]
    by_cases h : pat.isPrefixOf (c :: rest) = true
    · simp [h]
    · rw [if_neg h]
      exact List.cons_prefix_cons.mpr ⟨rfl, ih⟩

theorem containsSub_iff (pat t : List Char) : containsSub pat t = true ↔ pat <:+: t := by
  induction t with
  | nil => simp [containsSub, List.isEmpty_iff, List.infix_nil]
  | cons c rest ih =>
    rw [containsSub]
    simp [Bool.or_eq_true, List.isPrefixOf_iff_prefix, ih, List.infix_cons_iff]

theorem containsSub_splitBefore (pat t : List Char) (hp : pat ≠ []) :
    containsSub pat (splitBefore pat t) = false := by
  induction t with
  | nil =>
    cases pat with
    | nil => exact absurd rfl hp
    | cons a p => rfl
  | cons c rest ih =>
    rw [splitBefore]
    by_cases h : pat.isPrefixOf (c :: rest) = true
    · rw [if_pos h]
      cases pat with
      | nil => exact absurd rfl hp
      | cons a p => rfl
    · rw [if_neg h, containsSub]
      have hleft : pat.isPrefixOf (c :: splitBefore pat rest) = false := by
        by_contra hc
        rw [Bool.not_eq_false] at hc
        have h1 : pat <+: c :: splitBefore pat rest := List.isPrefixOf_iff_prefix.mp hc
        have h2 : c :: splitBefore pat rest <+: c :: rest :=
          List.cons_prefix_cons.mpr ⟨rfl, splitBefore_prefix pat rest⟩
        exact h (List.isPrefixOf_iff_prefix.mpr (h1.trans h2))
      rw [hleft, ih]
      rfl

theorem stripChars_within (t : List Char) : stripChars t <:+: t := by
  have h1 : t.dropWhile isPySpace <:+ t := List.dropWhile_suffix isPySpace
  have h2 : (t.dropWhile isPySpace).reverse.dropWhile isPySpace <:+
      (t.dropWhile isPySpace).reverse := List.dropWhile_suffix isPySpace
  obtain ⟨s, hs⟩ := h2
  have h3 : stripChars t <+: t.dropWhile isPySpace := by
    refine ⟨s.reverse, ?_⟩
    rw [stripChars, ← List.reverse_append, hs, List.reverse_reverse]
  exact h3.isInfix.trans h1.isInfix

theorem containsSub_false_mono {pat s t : List Char} (hst : s <:+: t)
    (h : containsSub pat t = false) : containsSub pat s = false := by
  by_contra hc
  rw [Bool.not_eq_false] at hc
  have hs : pat <:+: t := ((containsSub_iff pat s).mp hc).trans hst
  rw [(containsSub_iff pat t).mpr hs] at h
  simp at h

-- ---------------------------------------------------------------------------
-- Generation loop lemmas
-- ---------------------------------------------------------------------------

theorem genLoop_no_marker (stream : List Token) : ∀ acc : List Token,
    acc.length ≤ 200 →
    (∀ j : Nat, findMarker (detokenize (acc ++ stream.take j)) = none) →
    genLoop acc stream = acc ++ stream.take (201 - acc.length) := by
  induction stream with
  | nil => intro acc _ _; simp [genLoop]
  | cons tok rest ih =>
    intro acc hacc h
    have e1 : (tok :: rest).take 1 = [tok] := rfl
    have h1 : findMarker (detokenize (acc ++ [tok])) = none := by
      have := h 1
      rw [e1] at this
      exact this
    rw [genLoop, h1]
    by_cases hl : (acc ++ [tok]).length > 200
    · rw [if_pos hl]
      have hle : 201 - acc.length = 1 := by simp at hl; omega
      rw [hle, e1]
    · rw [if_neg hl]
      have hacc2 : (acc ++ [tok]).length ≤ 200 := by omega
      have h2 : ∀ j, findMarker (detokenize ((acc ++ [tok]) ++ rest.take j)) = none := by
        intro j
        have := h (j + 1)
        have e2 : (tok :: rest).take (j + 1) = tok :: rest.take j := rfl
        rw [e2] at this
        simpa [List.append_assoc] using this
      rw [ih (acc ++ [tok]) hacc2 h2]
      have e3 : 201 - (acc ++ [tok]).length = 200 - acc.length := by
        simp only [List.length_append, List.length_cons, List.length_nil]
        omega
      have e4 : 201 - acc.length = (200 - acc.length) + 1 := by omega
      have e5 : (tok :: rest).take ((200 - acc.length) + 1) = tok :: rest.take (200 - acc.length) := rfl
      rw [e3, e4, e5]
      simp

theorem genLoop_marker : ∀ (i : Nat) (acc stream : List Token) (m : List Char),
    acc.length + i ≤ 200 →
    (∀ j, j ≤ i → findMarker (detokenize (acc ++ stream.take j)) = none) →
    findMarker (detokenize (acc ++ stream.take (i + 1))) = some m →
    i + 1 ≤ stream.length →
    genLoop acc stream = tokenize (splitBefore m (detokenize (acc ++ stream.take (i + 1)))) := by
  intro i
  induction i with
  | zero =>
    intro acc stream m hb hn hm hlen
    cases stream with
    | nil => simp at hlen
    | cons tok rest =>
      have e : (tok :: rest).take (0 + 1) = [tok] := rfl
      rw [e] at hm
      rw [e]
      simp only [genLoop, hm]
  | succ i ih =>
    intro acc stream m hb hn hm hlen
    cases stream with
    | nil => simp at hlen
    | cons tok rest =>
      have e1 : (tok :: rest).take (0 + 1) = [tok] := rfl
      have h1 : findMarker (detokenize (acc ++ [tok])) = none := by
        have := hn 1 (by omega)
        rw [show (tok :: rest).take 1 = [tok] from rfl] at this
        exact this
      simp only [genLoop, h1]
      rw [if_neg (by simp; omega)]
      have hn2 : ∀ j, j ≤ i → findMarker (detokenize ((acc ++ [tok]) ++ rest.take j)) = none := by
        intro j hj
        have := hn (j + 1) (by omega)
        rw [show (tok :: rest).take (j + 1) = tok :: rest.take j from rfl] at this
        simpa [List.append_assoc] using this
      have hm2 : findMarker (detokenize ((acc ++ [tok]) ++ rest.take (i + 1))) = some m := by
        rw [show (tok :: rest).take (i + 1 + 1) = tok :: rest.take (i + 1) from rfl] at hm
        simpa [List.append_assoc] using hm
      rw [ih (acc ++ [tok]) rest m (by simp; omega) hn2 hm2 (by simp at hlen ⊢; omega)]
      rw [show (tok :: rest).take (i + 1 + 1) = tok :: rest.take (i + 1) from rfl]
      simp [List.append_assoc]

-- ---------------------------------------------------------------------------
-- C1: marker truncation in StreamingGenerator.generate
-- ---------------------------------------------------------------------------

/-- C1 (amended): for every token stream in which a role marker first occurs
in the detokenized transcript at a step within the token budget, generate
stops at that step and returns the transcript truncated before the first
occurrence of the first marker in the fixed check order
(newline-User:, newline-Human:, User:, Human:) and stripped; the returned
text contains no occurrence of that matched marker. It may, however, still
contain a different role-marker substring, so the claim as stated fails
(see the counterexample). -/
theorem generate_marker_truncation (stream : List Token) (i : Nat) (m : List Char)
    (hb : i ≤ 200)
    (hn : ∀ j, j ≤ i → findMarker (detokenize (stream.take j)) = none)
    (hm : findMarker (detokenize (stream.take (i + 1))) = some m)
    (hlen : i + 1 ≤ stream.length) :
    generate stream = stripChars (splitBefore m (detokenize (stream.take (i + 1)))) ∧
    containsSub m (generate stream) = false := by
  have hg : genLoop [] stream =
      tokenize (splitBefore m (detokenize (stream.take (i + 1)))) := by
    have := genLoop_marker i [] stream m (by simpa using hb)
      (by simpa using hn) (by simpa using hm) hlen
    simpa using this
  have hmne : m ≠ [] := by
    have hmem : m ∈ stopMarkers := List.mem_of_find?_eq_some hm
    simp [stopMarkers] at hmem
    rcases hmem with h | h | h | h <;> subst h <;> decide
  have hgen : generate stream =
      stripChars (splitBefore m (detokenize (stream.take (i + 1)))) := by
    rw [generate, hg]
    simp [detokenize, tokenize]
  refine ⟨hgen, ?_⟩
  rw [hgen]
  exact containsSub_false_mono (stripChars_within _)
    (containsSub_splitBefore m (detokenize (stream.take (i + 1))) hmne)

/-- C1 witness: a two-token stream whose second token introduces the marker
newline-User:; generate returns the text before it, free of that marker. -/
theorem generate_marker_truncation_witness :
    generate [("hello".data), ("\nUser: hi".data)] = ("hello".data) ∧
    containsSub ("\nUser:".data) (generate [("hello".data), ("\nUser: hi".data)]) = false := by
  have h := generate_marker_truncation [("hello".data), ("\nUser: hi".data)] 1
    ("\nUser:".data) (by omega) (by decide) (by decide) (by decide)
  exact ⟨by rw [h.1]; decide, h.2⟩

/-- C1 counterexample: a single token detokenizing to
"abcUser:xyz(newline)Human:def". The first marker in check order that occurs
is newline-Human:, so the split keeps "abcUser:xyz", and the returned text
still contains the role-marker substring "User:" from the raw stream,
refuting the claim that the returned text contains no role-marker substring. -/
theorem generate_marker_cex :
    generate [("abcUser:xyz\nHuman:def".data)] = ("abcUser:xyz".data) ∧
    containsSub ("User:".data) (generate [("abcUser:xyz\nHuman:def".data)]) = true :=
  ⟨by decide, by decide⟩

-- ---------------------------------------------------------------------------
-- C2: hard token limit in StreamingGenerator.generate
-- ---------------------------------------------------------------------------

/-- C2 (amended): for every token stream with no role marker in any prefix of
the detokenized transcript, the generation loop stops once the transcript
exceeds 200 tokens: the accumulated transcript is exactly the first 201
tokens of the stream (the whole stream when it is shorter), so its length is
at most 201 — not 200, as the counterexample shows. -/
theorem generate_hard_limit (stream : List Token)
    (h : ∀ j : Nat, findMarker (detokenize (stream.take j)) = none) :
    genLoop [] stream = stream.take 201 ∧ (genLoop [] stream).length ≤ 201 := by
  have hg : genLoop [] stream = stream.take 201 := by
    have := genLoop_no_marker stream [] (by simp) (by simpa using h)
    simpa using this
  refine ⟨hg, ?_⟩
  rw [hg, List.length_take]
  omega

/-- C2 witness: a one-token stream with no marker; the transcript is the
whole stream. -/
theorem generate_hard_limit_witness :
    genLoop [] [("hi".data)] = ([("hi".data)] : List Token).take 201 ∧
    (genLoop [] [("hi".data)]).length ≤ 201 :=
  generate_hard_limit [("hi".data)] (by
    intro j
    cases j with
    | zero => decide
    | succ n =>
      rw [show List.take (n + 1) [("hi".data)] = [("hi".data)] from by
        rw [List.take_succ_cons, List.take_nil]]
      decide)

/-- C2 counterexample: a marker-free stream of 210 one-character tokens; the
loop accumulates 201 tokens before stopping, exceeding the claimed 200-token
bound. -/
theorem generate_hard_limit_cex :
    (genLoop [] (List.replicate 210 (['a'] : List Char))).length = 201 := by
  decide

-- ---------------------------------------------------------------------------
-- Classification loop lemmas
-- ---------------------------------------------------------------------------

theorem classLoop_length : ∀ (stream acc : List Token) (i : Nat),
    acc.length = i → i ≤ 21 → (classLoop acc i stream).length ≤ 22 := by
  intro stream
  induction stream with
  | nil => intro acc i he hi; rw [classLoop]; omega
  | cons tok rest ih =>
    intro acc i he hi
    rw [classLoop]
    by_cases h1 : yesNoSuffix (acc ++ [tok]) = true
    · rw [if_pos h1]; simp; omega
    · rw [if_neg h1]
      by_cases h2 : i > 20
      · rw [if_pos h2]; simp; omega
      · rw [if_neg h2]
        exact ih (acc ++ [tok]) (i + 1) (by simp [he]) (by omega)

theorem classLoop_stop : ∀ (i : Nat) (acc stream : List Token) (k : Nat),
    k + i ≤ 21 →
    (∀ j, j ≤ i → yesNoSuffix (acc ++ stream.take j) = false) →
    yesNoSuffix (acc ++ stream.take (i + 1)) = true →
    i + 1 ≤ stream.length →
    classLoop acc k stream = acc ++ stream.take (i + 1) := by
  intro i
  induction i with
  | zero =>
    intro acc stream k hk hn hy hlen
    cases stream with
    | nil => simp at hlen
    | cons tok rest =>
      rw [show (tok :: rest).take (0 + 1) = [tok] from rfl] at hy
      rw [classLoop, if_pos hy, show (tok :: rest).take (0 + 1) = [tok] from rfl]
  | succ i ih =>
    intro acc stream k hk hn hy hlen
    cases stream with
    | nil => simp at hlen
    | cons tok rest =>
      have h1 : yesNoSuffix (acc ++ [tok]) = false := by
        have := hn 1 (by omega)
        rw [show (tok :: rest).take 1 = [tok] from rfl] at this
        exact this
      rw [classLoop, if_neg (by simp [h1]), if_neg (by omega)]
      have hn2 : ∀ j, j ≤ i → yesNoSuffix ((acc ++ [tok]) ++ rest.take j) = false := by
        intro j hj
        have := hn (j + 1) (by omega)
        rw [show (tok :: rest).take (j + 1) = tok :: rest.take j from rfl] at this
        simpa [List.append_assoc] using this
      have hy2 : yesNoSuffix ((acc ++ [tok]) ++ rest.take (i + 1)) = true := by
        rw [show (tok :: rest).take (i + 1 + 1) = tok :: rest.take (i + 1) from rfl] at hy
        simpa [List.append_assoc] using hy
      rw [ih (acc ++ [tok]) rest (k + 1) (by omega) hn2 hy2 (by simp at hlen ⊢; omega)]
      rw [show (tok :: rest).take (i + 1 + 1) = tok :: rest.take (i + 1) from rfl]
      simp [List.append_assoc]

-- ---------------------------------------------------------------------------
-- C3: the classifier decision rule
-- ---------------------------------------------------------------------------

/-- C3 (confirmed): should_search applies the decision rule to the final
stripped upper-cased text: YES contained decides true; otherwise NO contained
decides false; otherwise the result is the keyword fallback, true exactly
when the lower-cased input contains one of day, date, time, today, now,
upcoming, latest, recent, new, current. With an empty model output,
"what time is it" decides true and "hello there" decides false. -/
theorem should_search_decision_rule (stream : List Token) (input : List Char) :
    (containsSub ("YES".data) (classifierResponse stream) = true →
      should_search stream input = true) ∧
    (containsSub ("YES".data) (classifierResponse stream) = false →
      containsSub ("NO".data) (classifierResponse stream) = true →
      should_search stream input = false) ∧
    (containsSub ("YES".data) (classifierResponse stream) = false →
      containsSub ("NO".data) (classifierResponse stream) = false →
      should_search stream input =
        (timeIndicators ++ currentIndicators).any
          (fun w => containsSub w (toLowerList input))) ∧
    should_search [] ("what time is it".data) = true ∧
    should_search [] ("hello there".data) = false := by
  refine ⟨?_, ?_, ?_, by decide, by decide⟩
  · intro h; simp [should_search, h]
  · intro h1 h2; simp [should_search, h1, h2]
  · intro h1 h2
    simp only [should_search, h1, h2, Bool.false_eq_true, if_false, keywordFallback,
      List.any_append]
    cases hA : timeIndicators.any (fun w => containsSub w (toLowerList input)) <;>
      cases hB : currentIndicators.any (fun w => containsSub w (toLowerList input)) <;>
        simp [hA, hB]

/-- C3 witness: a stream whose single token is " YES"; the YES branch fires. -/
theorem should_search_decision_rule_witness :
    should_search [(" YES".data)] ("x".data) = true :=
  (should_search_decision_rule [(" YES".data)] ("x".data)).1 (by decide)

-- ---------------------------------------------------------------------------
-- C4: the classification loop token budget
-- ---------------------------------------------------------------------------

/-- C4 (amended): the classification loop stops as soon as the stripped
upper-cased transcript ends with YES or NO, and in any case consumes at most
22 tokens — not 20: the source breaks on a 0-based enumerate index strictly
greater than 20, which first holds after the 22nd token, as the
counterexample shows. -/
theorem classifier_token_budget (stream : List Token) :
    (classifierTokens stream).length ≤ 22 ∧
    (∀ i, i ≤ 21 →
      (∀ j, j ≤ i → yesNoSuffix (stream.take j) = false) →
      yesNoSuffix (stream.take (i + 1)) = true →
      i + 1 ≤ stream.length →
      classifierTokens stream = stream.take (i + 1)) := by
  constructor
  · exact classLoop_length stream [] 0 rfl (by omega)
  · intro i hi hn hy hlen
    have := classLoop_stop i [] stream 0 (by omega) (by simpa using hn)
      (by simpa using hy) hlen
    simpa using this

/-- C4 witness: a one-token stream ending in YES stops at once. -/
theorem classifier_token_budget_witness :
    classifierTokens [(" YES".data)] = [(" YES".data)] := by
  have h := (classifier_token_budget [(" YES".data)]).2 0 (by omega)
    (by decide) (by decide) (by decide)
  simpa using h

/-- C4 counterexample: a stream of 30 one-character tokens never ending in
YES or NO; the loop accumulates 22 tokens, exceeding the claimed 20-token
ceiling. -/
theorem classifier_token_budget_cex :
    (classifierTokens (List.replicate 30 (['a'] : List Char))).length = 22 := by
  decide

-- ---------------------------------------------------------------------------
-- C5: totality of the classifier under model failure
-- ---------------------------------------------------------------------------

/-- C5 (confirmed): when the model call raises (outcome none), should_search
returns a boolean and decides true exactly when the lower-cased input
contains one of upcoming, latest, today, current, recent, "what day",
"what time"; in particular it is total. -/
theorem should_search_error_fallback (input : List Char) :
    (should_search_total none input = true ↔
      ∃ t ∈ searchTermsOnError, containsSub t (toLowerList input) = true) ∧
    (should_search_total none input = true ∨ should_search_total none input = false) := by
  constructor
  · simp [should_search_total, should_search_on_error, List.any_eq_true]
  · cases h : should_search_total none input
    · right; rfl
    · left; rfl

-- ---------------------------------------------------------------------------
-- C6: sanitizer idempotence
-- ---------------------------------------------------------------------------

theorem clean_fixpoint (y : List Char) (h : cleanTriggers y = false) : clean y = y := by
  simp only [cleanTriggers, trailingMarkers, List.any_cons, List.any_nil,
    Bool.or_eq_false_iff] at h
  obtain ⟨h0, h1, h2, h3, h4, _⟩ := h
  simp [clean, trailingMarkers, stripTrailing, h0, h1, h2, h3, h4]

/-- C6 (amended): clean is not idempotent in general (see the
counterexample); it is idempotent on every input whose cleaned text triggers
no rule again, i.e. neither starts with "Assistant:" nor ends with one of the
trailing role labels. -/
theorem clean_conditionally_idempotent (x : List Char)
    (h : cleanTriggers (clean x) = false) : clean (clean x) = clean x :=
  clean_fixpoint (clean x) h

/-- C6 witness: cleaning "Assistant: hello" yields "hello", on which no rule
fires again. -/
theorem clean_conditionally_idempotent_witness :
    cleanTriggers (clean ("Assistant: hello".data)) = false ∧
    clean (clean ("Assistant: hello".data)) = clean ("Assistant: hello".data) :=
  ⟨by decide, clean_conditionally_idempotent ("Assistant: hello".data) (by decide)⟩

/-- C6 counterexample: on "Assistant:Assistant: hi" one application of clean
yields "Assistant: hi" and a second application yields "hi", refuting
idempotence as claimed. -/
theorem clean_idempotent_cex :
    clean (clean ("Assistant:Assistant: hi".data)) ≠ clean ("Assistant:Assistant: hi".data) := by
  decide

-- ---------------------------------------------------------------------------
-- C7: history capacity invariant
-- ---------------------------------------------------------------------------

theorem appendTurn_length_le (conv : List Turn) (t : Turn) :
    (appendTurn conv t).length ≤ maxHistory := by
  rw [appendTurn]
  by_cases h : (conv ++ [t]).length > maxHistory
  · rw [if_pos h]
    simp only [List.length_drop, List.length_append, List.length_cons,
      List.length_nil, maxHistory] at h ⊢
    omega
  · rw [if_neg h]
    simp only [List.length_append, List.length_cons, List.length_nil, maxHistory] at h ⊢
    omega

theorem foldl_appendTurn_le (ts : List Turn) : ∀ acc : List Turn,
    acc.length ≤ maxHistory → (ts.foldl appendTurn acc).length ≤ maxHistory := by
  induction ts with
  | nil => intro acc h; simpa using h
  | cons t ts ih =>
    intro acc h
    rw [List.foldl_cons]
    exact ih _ (appendTurn_length_le acc t)

/-- C7 (confirmed): append-then-trim keeps the history within maxHistory
turns after every operation, hence along any sequence of turns from the
empty history; and for every history longer than maxHistory, recent
maxHistory is a suffix (the last turns, in original order) of length exactly
maxHistory. -/
theorem history_capacity_invariant :
    (∀ conv (t : Turn), (appendTurn conv t).length ≤ maxHistory) ∧
    (∀ ts : List Turn, (ts.foldl appendTurn ([] : List Turn)).length ≤ maxHistory) ∧
    (∀ conv : List Turn, maxHistory < conv.length →
      recent conv maxHistory <:+ conv ∧ (recent conv maxHistory).length = maxHistory) := by
  refine ⟨appendTurn_length_le, fun ts => foldl_appendTurn_le ts [] (by simp [maxHistory]), ?_⟩
  intro conv h
  refine ⟨List.drop_suffix _ _, ?_⟩
  simp only [recent, List.length_drop, maxHistory] at h ⊢
  omega

/-- C7 witness: a 7-turn history; the last 6 turns form a suffix of length 6. -/
theorem history_capacity_invariant_witness :
    maxHistory < (List.replicate 7 (Turn.mk ("u".data) ("b".data))).length ∧
    recent (List.replicate 7 (Turn.mk ("u".data) ("b".data))) maxHistory <:+
      List.replicate 7 (Turn.mk ("u".data) ("b".data)) ∧
    (recent (List.replicate 7 (Turn.mk ("u".data) ("b".data))) maxHistory).length =
      maxHistory := by
  have h := history_capacity_invariant.2.2
    (List.replicate 7 (Turn.mk ("u".data) ("b".data))) (by decide)
  exact ⟨by decide, h.1, h.2⟩

-- ---------------------------------------------------------------------------
-- C8: search client error handling
-- ---------------------------------------------------------------------------

/-- C8 (confirmed): search_web is a total function of the call outcome: an
empty results array yields the sentinel no-results string, and a request
failure (network failure, timeout, or the non-2xx raise) yields the
descriptive unavailability string; any other failure yields the generic
error string. No outcome raises. -/
theorem search_web_error_handling :
    search_web (SearchOutcome.success []) 3 = noResultsMsg ∧
    (∀ e, search_web (SearchOutcome.requestFailure e) 3 =
      ("Search currently unavailable: ".data) ++ e) ∧
    (∀ e, search_web (SearchOutcome.otherFailure e) 3 = ("Search error: ".data) ++ e) :=
  ⟨rfl, fun _ => rfl, fun _ => rfl⟩

-- ---------------------------------------------------------------------------
-- C9: failed generation still recorded in history
-- ---------------------------------------------------------------------------

theorem appendTurn_ends_with (conv : List Turn) (t : Turn) :
    ∃ pre, appendTurn conv t = pre ++ [t] := by
  rw [appendTurn]
  by_cases h : (conv ++ [t]).length > maxHistory
  · rw [if_pos h]
    refine ⟨conv.drop ((conv ++ [t]).length - maxHistory), ?_⟩
    rw [List.drop_append_of_le_length (by
      simp only [List.length_append, List.length_cons, List.length_nil, maxHistory] at h ⊢
      omega)]
  · rw [if_neg h]
    exact ⟨conv, rfl⟩

/-- C9 (confirmed): when generation raises, the user-facing text is the
apologetic message embedding the error detail, and appending that failing
turn keeps the history bounded and records it as the most recent turn. -/
theorem error_turn_recorded (conv : List Turn) (input e : List Char) :
    e <:+ errorResponse e ∧
    (appendTurn conv (Turn.mk input (errorResponse e))).length ≤ maxHistory ∧
    ∃ pre, appendTurn conv (Turn.mk input (errorResponse e)) =
      pre ++ [Turn.mk input (errorResponse e)] :=
  ⟨List.suffix_append _ _, appendTurn_length_le _ _, appendTurn_ends_with _ _⟩

-- ---------------------------------------------------------------------------
-- C10: all-empty result entries produce the empty string
-- ---------------------------------------------------------------------------

theorem summary_fold_const (l : List SearchResult) :
    ∀ acc, (∀ r ∈ l, r.title = [] ∧ r.content = []) → l.foldl summaryStep acc = acc := by
  induction l with
  | nil => intro acc _; rfl
  | cons r rest ih =>
    intro acc h
    have hr := h r (by simp)
    rw [List.foldl_cons, show summaryStep acc r = acc from by simp [summaryStep, hr.1, hr.2]]
    exact ih acc (fun s hs => h s (by simp [hs]))

/-- C10 (confirmed): on a non-empty results array whose entries all lack both
title and content, search_web returns the empty string, which differs from
the sentinel; prompt assembly still skips the search block, because the empty
string is falsy in the conjunction guarding the block. -/
theorem search_web_all_empty_entries (results : List SearchResult)
    (context input : List Char) (hne : results ≠ [])
    (hall : ∀ r ∈ results, r.title = [] ∧ r.content = []) :
    search_web (SearchOutcome.success results) 3 = [] ∧
    search_web (SearchOutcome.success results) 3 ≠ noResultsMsg ∧
    buildPrompt context input (search_web (SearchOutcome.success results) 3) =
      plainPrompt context input := by
  have h1 : search_web (SearchOutcome.success results) 3 = [] := by
    simp only [search_web]
    rw [if_neg hne,
      summary_fold_const (results.take 3) [] (fun r hr => hall r (List.mem_of_mem_take hr))]
    rfl
  refine ⟨h1, ?_, ?_⟩
  · rw [h1]; decide
  · rw [h1]; simp [buildPrompt]

/-- C10 witness: one result entry with empty title and empty content. -/
theorem search_web_all_empty_entries_witness :
    search_web (SearchOutcome.success [SearchResult.mk [] []]) 3 = [] ∧
    search_web (SearchOutcome.success [SearchResult.mk [] []]) 3 ≠ noResultsMsg ∧
    buildPrompt ("ctx".data) ("q".data)
      (search_web (SearchOutcome.success [SearchResult.mk [] []]) 3) =
      plainPrompt ("ctx".data) ("q".data) :=
  search_web_all_empty_entries [SearchResult.mk [] []] ("ctx".data) ("q".data)
    (by decide) (by decide)

end Chatbot
